import Mathlib

/-!
Verification development for the scene-construction and spectral-synthesis
engine of the `pandisk` package (`pandisk/pandeia_funcs.py`).

Modelling conventions:
* Python floats are embedded as exact rationals `ℚ`; transcendental helpers
  from numpy (`np.exp`, `np.sin`, `np.cos`, `np.sqrt`, fractional powers and
  the constant `np.pi`) are passed in as explicit function/value parameters,
  so every theorem about them states exactly which analytic facts it uses.
* 1-D numpy arrays are embedded as `List ℚ`, 2-D images as `List (List ℚ)`.
* Scene elements (nested Python dicts) are embedded as structures whose
  optional keys are `Option`-valued; a `KeyError`/`IndexError` raised by the
  Python code is embedded as an `Option.none` result of the operation.
* `copy.deepcopy` of a pure value is the identity in this embedding; the
  copied-vs-aliased distinction is visible because the rescaling loop of
  `normalise_scene` is applied to the returned list, never to the argument.
-/

namespace Pandisk

/-- Modelled from the spec: the "fixed, configurable, numerically negligible
constant" `cfg.tiny` that `bnu` substitutes for overflowing exponentials.
The `cfg` object itself is not among the sources under `src/`; only its
field `tiny` is read, so it is modelled as a single positive rational that
is far below any physical flux produced here. -/
def cfg_tiny : ℚ := 1 / 10 ^ 30

/-- The constant `k1 = 3.9728949e19` defined at the top of `bnu`. -/
def k1 : ℚ := 39728949000000000000

/-- The constant `k2 = 14387.69` defined at the top of `bnu`. -/
def k2 : ℚ := 1438769 / 100

/-- The scalar branch of `bnu` (the final `else` of the `isinstance` chain):
`fact1 = k1/wav**3`, `fact2 = k2/(wav*temp)`, and the overflow guard
`if fact2 > 709: return cfg.tiny else: return fact1/(exp(fact2)-1.0)`.
Note the strict `>` here, in contrast to the array branches. -/
def bnu_scalar (exp : ℚ → ℚ) (wav_um temp : ℚ) : ℚ :=
  let fact1 := k1 / wav_um ^ 3
  let fact2 := k2 / (wav_um * temp)
  if fact2 > 709 then cfg_tiny else fact1 / (exp fact2 - 1)

/-- The wavelength-array branch of `bnu` (`isinstance(wav_um, np.ndarray)`):
`fact1` and `fact2` are computed elementwise, `ofl = fact2 < 709` is the
non-overflow mask, the output starts as `np.zeros(len(fact2)) + cfg.tiny`
and the masked positions are overwritten with `fact1[ofl]/(exp(fact2[ofl])-1)`.
The early `return` when no position is unmasked yields the same array. -/
def bnu_arr_wav (exp : ℚ → ℚ) (wav_um : List ℚ) (temp : ℚ) : List ℚ :=
  let fact1 := wav_um.map (fun w => k1 / w ^ 3)
  let fact2 := wav_um.map (fun w => k2 / (w * temp))
  let bnu0 := fact2.map (fun _ => (0 : ℚ) + cfg_tiny)
  List.zipWith (fun p b => if p.2 < 709 then p.1 / (exp p.2 - 1) else b)
    (fact1.zip fact2) bnu0

/-- The temperature-array branch of `bnu` (`isinstance(temp, np.ndarray)`):
as `bnu_arr_wav` but `fact1` is the scalar `k1/wav_um**3` broadcast over the
masked positions. -/
def bnu_arr_temp (exp : ℚ → ℚ) (wav_um : ℚ) (temp : List ℚ) : List ℚ :=
  let fact1 := k1 / wav_um ^ 3
  let fact2 := temp.map (fun t => k2 / (wav_um * t))
  let bnu0 := fact2.map (fun _ => (0 : ℚ) + cfg_tiny)
  List.zipWith (fun f2 b => if f2 < 709 then fact1 / (exp f2 - 1) else b)
    fact2 bnu0

/-- `np.deg2rad`, with `np.pi` passed in as the parameter `pi`. -/
def deg2rad (pi x : ℚ) : ℚ := x * pi / 180

/-- The `s['position']` sub-dict of a scene element. -/
structure Position where
  orientation : ℚ
  x_offset : ℚ
  y_offset : ℚ
deriving DecidableEq

/-- The `s['shape']` sub-dict.  `scene_star` only writes `geometry`; the
`major`/`minor`/`orientation` keys are absent for it, hence `Option`. -/
structure Shape where
  geometry : String
  major : Option ℚ
  minor : Option ℚ
  orientation : Option ℚ
deriving DecidableEq

/-- The `s['spectrum']['normalization']` sub-dict.  `bandpass`, `norm_wave`
and `norm_waveunit` are present for some element kinds only. -/
structure Normalization where
  type : String
  bandpass : Option String
  norm_flux : ℚ
  norm_fluxunit : String
  norm_wave : Option ℚ
  norm_waveunit : Option String
deriving DecidableEq

/-- The `s['spectrum']['sed']` sub-dict. -/
structure Sed where
  sed_type : String
  key : Option String
  temp : Option ℚ
  wmin : Option ℚ
  wmax : Option ℚ
  sampling : Option ℚ
deriving DecidableEq

/-- The `s['spectrum']` sub-dict.  `lines` is always the empty list in the
source; its entries are modelled as rationals. -/
structure Spectrum where
  lines : List ℚ
  name : String
  normalization : Normalization
  redshift : ℚ
  sed : Sed
deriving DecidableEq

/-- One scene element: the nested dict built by `scene_star` / `get_dot`. -/
structure Element where
  id : ℤ
  position : Position
  shape : Shape
  spectrum : Spectrum
deriving DecidableEq

/-- `scene_star(sptype, mag, id, band, name)`: a `point` element with
`photsys` normalization, exactly the keys written by the source. -/
def scene_star (sptype : String) (mag : ℚ) (id : ℤ) (band name : String) :
    Element :=
  { id := id
    position := { orientation := 0, x_offset := 0, y_offset := 0 }
    shape := { geometry := ("point"), major := none, minor := none,
               orientation := none }
    spectrum :=
      { lines := []
        name := name
        normalization :=
          { type := ("photsys"), bandpass := some band, norm_flux := mag,
            norm_fluxunit := ("vegamag"), norm_wave := none,
            norm_waveunit := none }
        redshift := 0
        sed := { sed_type := ("phoenix"), key := some sptype, temp := none,
                 wmin := none, wmax := none, sampling := none } } }

/-- `get_dot(id, x, y, name, norm_wave, norm_flux, temp, size)`: a circular
`flat` blackbody element with `at_lambda` normalization. -/
def get_dot (id : ℤ) (x y : ℚ) (name : String)
    (norm_wave norm_flux temp size : ℚ) : Element :=
  { id := id
    position := { orientation := 0, x_offset := x, y_offset := y }
    shape := { geometry := ("flat"), major := some size, minor := some size,
               orientation := some 0 }
    spectrum :=
      { lines := []
        name := name
        normalization :=
          { type := ("at_lambda"), bandpass := none, norm_flux := norm_flux,
            norm_fluxunit := ("mjy"), norm_wave := some norm_wave,
            norm_waveunit := some ("micron") }
        redshift := 0
        sed := { sed_type := ("blackbody"), key := none, temp := some temp,
                 wmin := none, wmax := none, sampling := none } } }

/-- `_rebin(a, shape)`: block-mean rebinning via
`a.reshape(sh).mean(-1).mean(1)`.  The reshape raises a `ValueError`
(here: `none`) unless both image dimensions are exact multiples of the
target shape `(p, q)`. -/
def rebin_img (a : List (List ℚ)) (p q : ℕ) : Option (List (List ℚ)) :=
  let m := a.length
  let n := (a.headD []).length
  if p = 0 ∨ q = 0 ∨ m % p ≠ 0 ∨ n % q ≠ 0 then none
  else
    let bh := m / p
    let bw := n / q
    some ((List.range p).map (fun i => (List.range q).map (fun j =>
      ((List.range bh).map (fun u =>
        (((List.range bw).map (fun v =>
            (a.getD (i * bh + u) []).getD (j * bw + v) 0)).sum) / (bw : ℚ))).sum
        / (bh : ℚ))))

/-- `np.max` over a (nonempty) 2-D image; `none` models the error `np.max`
raises on an empty array. -/
def list_max2 (img : List (List ℚ)) : Option ℚ :=
  match img.flatten with
  | [] => none
  | x :: xs => some (xs.foldl max x)

/-- The double loop at the end of `image2scene`: for each index pair
`(i, j)` (with `i` ranging over `shape[0]` and `j` over `shape[1]`, exactly
as in the source, which then reads `img[j, i]`), append a `get_dot` element
when the pixel exceeds `max(img)/drange`, incrementing the id counter `ni`
only for appended elements.  An out-of-range access is `none`. -/
def img_loop (wave drange mx dx : ℚ) (tempf : ℚ → ℚ) (rf : ℕ → ℕ → ℚ)
    (xf yf : ℕ → ℚ) (img : List (List ℚ)) :
    List (ℕ × ℕ) → ℤ → List Element → Option (List Element)
  | [], _, scene => some scene
  | (i, j) :: rest, ni, scene =>
    match img.get? j with
    | none => none
    | some row =>
      match row.get? i with
      | none => none
      | some v =>
        if v > mx / drange then
          img_loop wave drange mx dx tempf rf xf yf img rest (ni + 1)
            (scene ++ [get_dot ni (xf i) (yf j) ("dot") wave v
                        (tempf (rf j i)) dx])
        else
          img_loop wave drange mx dx tempf rf xf yf img rest ni scene

/-- `image2scene(scene, img, wave, aspp, lstar, rebin, drange)`.
`sqrt` embeds `np.sqrt` and `rt4` embeds `(¬∑) ** 0.25`, so the temperature
law `lambda x: 278.3 * lstar**0.25 / np.sqrt(x)` becomes `tempf`.
The coordinate grids `x`, `y` of the source satisfy `x[r][c] = xf c` and
`y[r][c] = yf r`; `dx = np.diff(x)[0,0]` needs at least one row and two
columns (else `none`, modelling the `IndexError`).  The id counter starts at
`np.max([s['id'] for s in scene])` when the scene is nonempty, else at 1. -/
def image2scene (sqrt rt4 : ℚ → ℚ) (scene : List Element)
    (img0 : List (List ℚ)) (wave aspp lstar : ℚ) (rebin : Option (ℕ × ℕ))
    (drange : ℚ) : Option (List Element) :=
  match (match rebin with
         | none => some img0
         | some pq => rebin_img img0 pq.1 pq.2) with
  | none => none
  | some img =>
    let rows := img.length
    let cols := (img.headD []).length
    let xf : ℕ → ℚ := fun c => (c : ℚ) * aspp - ((cols : ℚ) - 1) / 2 * aspp
    let yf : ℕ → ℚ := fun r => (r : ℚ) * aspp - ((rows : ℚ) - 1) / 2 * aspp
    let rf : ℕ → ℕ → ℚ := fun r c => sqrt ((xf c) ^ 2 + (yf r) ^ 2)
    match (if 1 ≤ rows ∧ 2 ≤ cols then some (xf 1 - xf 0) else none),
          list_max2 img with
    | some dx, some mx =>
      let tempf : ℚ → ℚ := fun x => 2783 / 10 * rt4 lstar / sqrt x
      let ni : ℤ :=
        match scene with
        | [] => 1
        | e :: rest => (rest.map (fun s => s.id)).foldl max e.id
      let idxs := ((List.range rows).map (fun i =>
        (List.range cols).map (fun j => (i, j)))).flatten
      img_loop wave drange mx dx tempf rf xf yf img idxs ni scene
    | _, _ => none

/-- The chunk template of `add_ring` (lines 221-246 of the source): a deep
copy of `scene[0]` (= `disk0`) whose position orientation is reset, whose
sed `key` is deleted (inside `try/except`, hence unconditionally `none`
here), and whose shape / normalization / sed fields are overwritten as in
the source; the `bandpass` key is deleted (the caller checks it exists) and
the `norm_flux` value is carried over from `disk0` until the per-chunk loop
overwrites it. -/
def ring_template (disk0 : Element) (dr temp norm_wave inc pa : ℚ)
    (cos : ℚ → ℚ) (pi : ℚ) : Element :=
  { id := disk0.id
    position := { orientation := 0,
                  x_offset := disk0.position.x_offset,
                  y_offset := disk0.position.y_offset }
    shape := { geometry := ("flat"), major := some dr,
               minor := some (dr * cos (deg2rad pi inc)),
               orientation := some (90 + pa) }
    spectrum :=
      { lines := []
        name := ("disk chunk")
        normalization :=
          { type := ("at_lambda"), bandpass := none,
            norm_flux := disk0.spectrum.normalization.norm_flux,
            norm_fluxunit := ("mjy"), norm_wave := some norm_wave,
            norm_waveunit := some ("micron") }
        redshift := 0
        sed := { sed_type := ("blackbody"), key := none,
                 temp := some temp, wmin := some (1 / 2),
                 wmax := some 30, sampling := some 200 } } }

/-- The per-chunk loop of `add_ring` (lines 255-262):
`angs = np.deg2rad(np.linspace(0, 360, n, endpoint=False))`, i.e. the
`k`-th angle is `deg2rad (k * (360/n))`; chunk `k` is a deep copy of the
template with id `k + i0 + 1` (`i0 = len(scene)`), normalization flux
`flux / len(angs)` and the inclination-projected position
`(r·sin(a)·cos(inc_rad), r·cos(a))`. -/
def ring_chunks (sin cos : ℚ → ℚ) (pi : ℚ) (disk : Element)
    (r flux inc : ℚ) (i0 n : ℕ) : List Element :=
  let angs := (List.range n).map
    (fun (k : ℕ) => deg2rad pi ((k : ℚ) * (360 / (n : ℚ))))
  angs.enum.map (fun p =>
    { disk with
      id := (p.1 : ℤ) + (i0 : ℤ) + 1
      spectrum :=
        { disk.spectrum with
          normalization :=
            { disk.spectrum.normalization with
              norm_flux := flux / (angs.length : ℚ) } }
      position :=
        { disk.position with
          x_offset := r * sin p.2 * cos (deg2rad pi inc)
          y_offset := r * cos p.2 } })

/-- `add_ring(scene, r, dr, flux, temp, norm_wave, inc, pa, npt)`.
`sin`/`cos` embed `np.sin`/`np.cos` and `pi` embeds `np.pi`.  The template
is built from `scene[0]` (`none` on an empty scene, modelling the
`IndexError`); `del disk[...]['bandpass']` raises a `KeyError` (`none`)
when that key is absent.  When `npt` is not supplied it defaults to
`int(2*np.pi*r/dr)`, and the chunks are appended to the scene. -/
def add_ring (sin cos : ℚ → ℚ) (pi : ℚ) (scene : List Element)
    (r dr flux temp norm_wave inc pa : ℚ) (npt : Option ℕ) :
    Option (List Element) :=
  match scene.get? 0 with
  | none => none
  | some disk0 =>
    match disk0.spectrum.normalization.bandpass with
    | none => none
    | some _ =>
      let n := match npt with
               | some m => m
               | none => (⌊2 * pi * r / dr⌋).toNat
      some (scene ++
        ring_chunks sin cos pi
          (ring_template disk0 dr temp norm_wave inc pa cos pi)
          r flux inc scene.length n)

/-- The loop body of `add_radial_profile`: `enumerate(rad)` threaded through
`add_ring`, reading `dr[i]`, `flux[i]`, `temp[i]` (an out-of-range read is
an `IndexError`, i.e. `none`). -/
def arp_go (sin cos : ℚ → ℚ) (pi : ℚ) (dr flux temp : List ℚ)
    (norm_wave inc pa : ℚ) (npt : Option ℕ) :
    ℕ → List ℚ → List Element → Option (List Element)
  | _, [], scene => some scene
  | i, r :: rest, scene =>
    match dr.get? i, flux.get? i, temp.get? i with
    | some dri, some fl, some tp =>
      match add_ring sin cos pi scene r dri fl tp norm_wave inc pa npt with
      | none => none
      | some scene2 =>
        arp_go sin cos pi dr flux temp norm_wave inc pa npt (i + 1) rest
          scene2
    | _, _, _ => none

/-- `add_radial_profile(scene, rad, dr, flux, temp, norm_wave, inc, pa, npt)`. -/
def add_radial_profile (sin cos : ℚ → ℚ) (pi : ℚ) (scene : List Element)
    (rad dr flux temp : List ℚ) (norm_wave inc pa : ℚ) (npt : Option ℕ) :
    Option (List Element) :=
  arp_go sin cos pi dr flux temp norm_wave inc pa npt 0 rad scene

/-- The summation loop of `scene_spectrum` for a scalar `wave`: for each
element the blackbody temperature `s['spectrum']['sed']['temp']` and the
reference wavelength `s['spectrum']['normalization']['norm_wave']` are
looked up (a missing key is a `KeyError`, i.e. `none`) and
`bnu(wave,temp) * norm_flux / bnu(norm_wave,temp)` is accumulated. -/
def scene_spectrum_go (exp : ℚ → ℚ) (wave : ℚ) :
    List Element → ℚ → Option ℚ
  | [], flux => some flux
  | s :: rest, flux =>
    match s.spectrum.sed.temp with
    | none => none
    | some temp =>
      match s.spectrum.normalization.norm_wave with
      | none => none
      | some nw =>
        scene_spectrum_go exp wave rest
          (flux + bnu_scalar exp wave temp *
            (s.spectrum.normalization.norm_flux / bnu_scalar exp nw temp))

/-- `scene_spectrum(scene, first_id, wave)` for a scalar `wave` (the claims
all evaluate it at a single wavelength): the scalar flux accumulator starts
at `0.0` and the loop runs over the index-based slice `scene[first_id:]`.
The returned `wave` component of the Python pair carries no information for
a scalar `wave`, so only the flux is returned. -/
def scene_spectrum (exp : ℚ → ℚ) (scene : List Element) (first_id : ℕ)
    (wave : ℚ) : Option ℚ :=
  scene_spectrum_go exp wave (scene.drop first_id) 0

/-- Python's `range(a, b)` as a list of naturals. -/
def pyRange (a b : ℕ) : List ℕ := List.range' a (b - a)

/-- The in-loop update `s[i]['spectrum']['normalization']['norm_flux'] *= norm`. -/
def scale_norm (e : Element) (norm : ℚ) : Element :=
  { e with
    spectrum :=
      { e.spectrum with
        normalization :=
          { e.spectrum.normalization with
            norm_flux := e.spectrum.normalization.norm_flux * norm } } }

/-- The final loop of `normalise_scene`: for each index of `idxs` rescale
the element of `s` at that index; an out-of-range index is an `IndexError`
(`none`). -/
def rescale_loop (norm : ℚ) : List Element → List ℕ → Option (List Element)
  | s, [] => some s
  | s, i :: rest =>
    match s.get? i with
    | none => none
    | some e => rescale_loop norm (s.set i (scale_norm e norm)) rest

/-- The defaulting of `norm_wave` in `normalise_scene`:
`if norm_wave is None: norm_wave = s[first_id][...]['norm_wave']`, where
either the indexing or the key lookup may fail. -/
def resolve_norm_wave (s : List Element) (norm_wave : Option ℚ)
    (first_id : ℕ) : Option ℚ :=
  match norm_wave with
  | some w => some w
  | none =>
    match s.get? first_id with
    | none => none
    | some e => e.spectrum.normalization.norm_wave

/-- `normalise_scene(scene, norm_flux, norm_wave, first_id)`: deep-copy the
scene (the identity on pure values), resolve `norm_wave`, evaluate the
current total via `scene_spectrum`, and rescale the copy over the index
range `range(first_id, len(scene[first_id:])+1)` — exactly the range the
source uses.  The input list is never written to; only the copy is. -/
def normalise_scene (exp : ℚ → ℚ) (scene : List Element) (norm_flux : ℚ)
    (norm_wave : Option ℚ) (first_id : ℕ) : Option (List Element) :=
  match resolve_norm_wave scene norm_wave first_id with
  | none => none
  | some nw =>
    match scene_spectrum exp scene first_id nw with
    | none => none
    | some tot =>
      rescale_loop (norm_flux / tot) scene
        (pyRange first_id (scene.length - first_id + 1))

/-- Field-by-field equality of two elements with the
`spectrum.normalization.norm_flux` value exempted: the only difference
`normalise_scene` is allowed to introduce. -/
def eqExceptNormFlux (a b : Element) : Prop :=
  b.id = a.id ∧ b.position = a.position ∧ b.shape = a.shape ∧
  b.spectrum.lines = a.spectrum.lines ∧
  b.spectrum.name = a.spectrum.name ∧
  b.spectrum.redshift = a.spectrum.redshift ∧
  b.spectrum.sed = a.spectrum.sed ∧
  b.spectrum.normalization.type = a.spectrum.normalization.type ∧
  b.spectrum.normalization.bandpass = a.spectrum.normalization.bandpass ∧
  b.spectrum.normalization.norm_fluxunit
    = a.spectrum.normalization.norm_fluxunit ∧
  b.spectrum.normalization.norm_wave = a.spectrum.normalization.norm_wave ∧
  b.spectrum.normalization.norm_waveunit
    = a.spectrum.normalization.norm_waveunit

instance (a b : Element) : Decidable (eqExceptNormFlux a b) := by
  unfold eqExceptNormFlux; infer_instance

/-! ## Helper lemmas -/

lemma bnu_arr_wav_cons (exp : ℚ → ℚ) (w : ℚ) (ws : List ℚ) (t : ℚ) :
    bnu_arr_wav exp (w :: ws) t =
      (if k2 / (w * t) < 709 then (k1 / w ^ 3) / (exp (k2 / (w * t)) - 1)
       else (0 : ℚ) + cfg_tiny) :: bnu_arr_wav exp ws t := rfl

lemma bnu_arr_temp_cons (exp : ℚ → ℚ) (w : ℚ) (t : ℚ) (ts : List ℚ) :
    bnu_arr_temp exp w (t :: ts) =
      (if k2 / (w * t) < 709 then (k1 / w ^ 3) / (exp (k2 / (w * t)) - 1)
       else (0 : ℚ) + cfg_tiny) :: bnu_arr_temp exp w ts := rfl

lemma bnu_arr_wav_length (exp : ℚ → ℚ) (ws : List ℚ) (t : ℚ) :
    (bnu_arr_wav exp ws t).length = ws.length := by
  induction ws with
  | nil => rfl
  | cons w ws ih => rw [bnu_arr_wav_cons, List.length_cons, ih]; rfl

lemma bnu_arr_temp_length (exp : ℚ → ℚ) (w : ℚ) (ts : List ℚ) :
    (bnu_arr_temp exp w ts).length = ts.length := by
  induction ts with
  | nil => rfl
  | cons t ts ih => rw [bnu_arr_temp_cons, List.length_cons, ih]; rfl

lemma bnu_arr_wav_get? (exp : ℚ → ℚ) (ws : List ℚ) (t : ℚ) (i : ℕ) :
    (bnu_arr_wav exp ws t).get? i =
      (ws.get? i).map (fun w =>
        if k2 / (w * t) < 709 then (k1 / w ^ 3) / (exp (k2 / (w * t)) - 1)
        else cfg_tiny) := by
  induction ws generalizing i with
  | nil => rfl
  | cons w ws ih =>
    rw [bnu_arr_wav_cons]
    cases i with
    | zero => simp
    | succ n => simpa using ih n

lemma bnu_arr_temp_get? (exp : ℚ → ℚ) (w : ℚ) (ts : List ℚ) (i : ℕ) :
    (bnu_arr_temp exp w ts).get? i =
      (ts.get? i).map (fun t =>
        if k2 / (w * t) < 709 then (k1 / w ^ 3) / (exp (k2 / (w * t)) - 1)
        else cfg_tiny) := by
  induction ts generalizing i with
  | nil => rfl
  | cons t ts ih =>
    rw [bnu_arr_temp_cons]
    cases i with
    | zero => simp
    | succ n => simpa using ih n

/-! ## C2: shape safety and mixed elementwise evaluation of `bnu` -/

/-- C2: for any (positive or not) inputs, the array branches of `bnu` are
total functions whose output length equals the length of the array input,
and within one call each position is produced correctly: positions whose
exponent argument `k2/(wav*temp)` is below 709 carry the Planck value and
the remaining positions carry the negligible constant — mixed
valid/negligible results coexist in one output.  (Scalar-in → scalar-out
and freedom from exceptions are expressed by the types themselves:
`bnu_scalar` is a total function `ℚ → ℚ → ℚ`.) -/
theorem bnu_shape_and_mixed_elementwise (exp : ℚ → ℚ) (ws : List ℚ)
    (t w : ℚ) (ts : List ℚ) :
    (bnu_arr_wav exp ws t).length = ws.length ∧
    (bnu_arr_temp exp w ts).length = ts.length ∧
    (∀ i, (bnu_arr_wav exp ws t).get? i =
      (ws.get? i).map (fun wv =>
        if k2 / (wv * t) < 709
        then (k1 / wv ^ 3) / (exp (k2 / (wv * t)) - 1) else cfg_tiny)) ∧
    (∀ i, (bnu_arr_temp exp w ts).get? i =
      (ts.get? i).map (fun tv =>
        if k2 / (w * tv) < 709
        then (k1 / w ^ 3) / (exp (k2 / (w * tv)) - 1) else cfg_tiny)) :=
  ⟨bnu_arr_wav_length exp ws t, bnu_arr_temp_length exp w ts,
   bnu_arr_wav_get? exp ws t, bnu_arr_temp_get? exp w ts⟩

/-! ## C3: behaviour at the overflow threshold -/

/-- C3 counterexample: at an exponent argument exactly equal to the
threshold (`k2/(wav*temp) = 709`, realised by `wav = 1438769/70900`,
`temp = 1`), the scalar branch of `bnu` does NOT return the negligible
constant: it computes the exponential (here with the stand-in `exp = 2`,
giving `k1/wav³`), because the scalar guard is the strict `fact2 > 709`. -/
theorem bnu_scalar_at_threshold_counterexample :
    k2 / ((1438769 / 70900 : ℚ) * 1) = 709 ∧
    bnu_scalar (fun _ => 2) (1438769 / 70900) 1 ≠ cfg_tiny := by
  constructor
  · norm_num [k2]
  · norm_num [bnu_scalar, k1, k2, cfg_tiny]

/-- C3 (amended): the overflow short-circuit of `bnu` is boundary-inclusive
for array inputs but boundary-exclusive for scalar inputs: a scalar call
returns the negligible constant exactly when `k2/(wav*temp)` is strictly
above 709 and evaluates the Planck formula at or below 709, while for both
array branches every position whose exponent argument is at or above 709 is
the negligible constant exactly and every position below 709 is the Planck
value. -/
theorem bnu_threshold_behaviour (exp : ℚ → ℚ) :
    (∀ w t : ℚ, 709 < k2 / (w * t) →
      bnu_scalar exp w t = cfg_tiny) ∧
    (∀ w t : ℚ, k2 / (w * t) ≤ 709 →
      bnu_scalar exp w t = (k1 / w ^ 3) / (exp (k2 / (w * t)) - 1)) ∧
    (∀ (ws : List ℚ) (t wv : ℚ) (i : ℕ), ws.get? i = some wv →
      709 ≤ k2 / (wv * t) → (bnu_arr_wav exp ws t).get? i = some cfg_tiny) ∧
    (∀ (ws : List ℚ) (t wv : ℚ) (i : ℕ), ws.get? i = some wv →
      k2 / (wv * t) < 709 → (bnu_arr_wav exp ws t).get? i =
        some ((k1 / wv ^ 3) / (exp (k2 / (wv * t)) - 1))) ∧
    (∀ (ts : List ℚ) (w tv : ℚ) (i : ℕ), ts.get? i = some tv →
      709 ≤ k2 / (w * tv) → (bnu_arr_temp exp w ts).get? i = some cfg_tiny) ∧
    (∀ (ts : List ℚ) (w tv : ℚ) (i : ℕ), ts.get? i = some tv →
      k2 / (w * tv) < 709 → (bnu_arr_temp exp w ts).get? i =
        some ((k1 / w ^ 3) / (exp (k2 / (w * tv)) - 1))) := by
  refine ⟨fun w t h => ?_, fun w t h => ?_, fun ws t wv i hi h => ?_,
          fun ws t wv i hi h => ?_, fun ts w tv i hi h => ?_,
          fun ts w tv i hi h => ?_⟩
  · simp only [bnu_scalar, if_pos h]
  · simp only [bnu_scalar, if_neg (not_lt.mpr h)]
  · rw [bnu_arr_wav_get? exp ws t i, hi, Option.map_some']
    rw [if_neg (not_lt.mpr h)]
  · rw [bnu_arr_wav_get? exp ws t i, hi, Option.map_some']
    rw [if_pos h]
  · rw [bnu_arr_temp_get? exp w ts i, hi, Option.map_some']
    rw [if_neg (not_lt.mpr h)]
  · rw [bnu_arr_temp_get? exp w ts i, hi, Option.map_some']
    rw [if_pos h]

/-- Witness for C3: each clause of `bnu_threshold_behaviour` applied at a
concrete input — a scalar strictly above threshold, a scalar below, and
array positions at and below the threshold. -/
theorem bnu_threshold_behaviour_witness :
    bnu_scalar (fun _ => 2) 1 1 = cfg_tiny ∧
    bnu_scalar (fun _ => 2) 10 100 =
      (k1 / 10 ^ 3) / ((fun (_ : ℚ) => (2 : ℚ)) (k2 / (10 * 100)) - 1) ∧
    (bnu_arr_wav (fun _ => 2) [1438769 / 70900] 1).get? 0 = some cfg_tiny ∧
    (bnu_arr_wav (fun _ => 2) [10] 100).get? 0 =
      some ((k1 / 10 ^ 3) / ((fun (_ : ℚ) => (2 : ℚ)) (k2 / (10 * 100)) - 1)) ∧
    (bnu_arr_temp (fun _ => 2) (1438769 / 70900) [1]).get? 0
      = some cfg_tiny ∧
    (bnu_arr_temp (fun _ => 2) 10 [100]).get? 0 =
      some ((k1 / 10 ^ 3) / ((fun (_ : ℚ) => (2 : ℚ)) (k2 / (10 * 100)) - 1)) :=
  ⟨(bnu_threshold_behaviour (fun _ => 2)).1 1 1 (by norm_num [k2]),
   (bnu_threshold_behaviour (fun _ => 2)).2.1 10 100 (by norm_num [k2]),
   (bnu_threshold_behaviour (fun _ => 2)).2.2.1 [1438769 / 70900] 1
     (1438769 / 70900) 0 rfl (by norm_num [k2]),
   (bnu_threshold_behaviour (fun _ => 2)).2.2.2.1 [10] 100 10 0 rfl
     (by norm_num [k2]),
   (bnu_threshold_behaviour (fun _ => 2)).2.2.2.2.1 [1] (1438769 / 70900)
     1 0 rfl (by norm_num [k2]),
   (bnu_threshold_behaviour (fun _ => 2)).2.2.2.2.2 [100] 10 100 0 rfl
     (by norm_num [k2])⟩

/-! ## C7 and C8: the scene spectral aggregator -/

/-- C7: for a scene consisting of exactly one blackbody-at-wavelength
element (a `get_dot`) with positive temperature and positive reference
wavelength, `scene_spectrum` evaluated at the element's own `norm_wave`
returns exactly the stored `norm_flux`.  The hypothesis `hB` states that the
Planck evaluator is nonzero there — true for the genuine exponential, where
the value is either the positive constant `cfg.tiny` or a positive Planck
value; in exact rational arithmetic the round-trip is then exact rather
than merely within floating-point tolerance. -/
theorem scene_spectrum_roundtrip (exp : ℚ → ℚ) (id : ℤ) (x y : ℚ)
    (name : String) (w F T sz : ℚ) (hT : 0 < T) (hw : 0 < w)
    (hB : bnu_scalar exp w T ≠ 0) :
    scene_spectrum exp [get_dot id x y name w F T sz] 0 w = some F := by
  simp only [scene_spectrum, List.drop_zero, scene_spectrum_go, get_dot]
  rw [zero_add, ← mul_div_assoc, mul_div_cancel_left₀ _ hB]

/-- Witness for C7 at a concrete dot (`norm_wave = 10`, `norm_flux = 5`,
`temp = 100`) and the stand-in exponential `exp = 2`. -/
theorem scene_spectrum_roundtrip_witness :
    scene_spectrum (fun _ => 2) [get_dot 1 0 0 ("d") 10 5 100 (1 / 10)] 0 10
      = some 5 :=
  scene_spectrum_roundtrip (fun _ => 2) 1 0 0 ("d") 10 5 100 (1 / 10)
    (by norm_num) (by norm_num) (by norm_num [bnu_scalar, k1, k2])

lemma scene_spectrum_go_missing_temp (exp : ℚ → ℚ) (wave : ℚ) :
    ∀ (l : List Element) (flux : ℚ),
      (∃ s ∈ l, s.spectrum.sed.temp = none) →
      scene_spectrum_go exp wave l flux = none := by
  intro l
  induction l with
  | nil => intro flux h; simp at h
  | cons s rest ih =>
    intro flux h
    rcases h with ⟨x, hx, hnone⟩
    rcases List.mem_cons.mp hx with rfl | hmem
    · simp only [scene_spectrum_go, hnone]
    · cases ht : s.spectrum.sed.temp with
      | none => simp only [scene_spectrum_go, ht]
      | some T =>
        cases hn : s.spectrum.normalization.norm_wave with
        | none => simp only [scene_spectrum_go, ht, hn]
        | some nw =>
          simp only [scene_spectrum_go, ht, hn]
          exact ih _ ⟨x, hmem, hnone⟩

/-- C8: `scene_spectrum` sums exactly the elements of the index-based slice
`scene[first_id:]` — prefixing a scene by any list `a` and starting at index
`a.length` gives the same flux as the un-prefixed scene, irrespective of any
`id` fields — and whenever any element of that slice lacks the blackbody
temperature key (a pure photometric star), the call raises a lookup error
(`none`) instead of returning a flux. -/
theorem scene_spectrum_slice_and_missing_temp :
    (∀ (exp : ℚ → ℚ) (scene : List Element) (first_id : ℕ) (wave : ℚ),
      (∃ s ∈ scene.drop first_id, s.spectrum.sed.temp = none) →
      scene_spectrum exp scene first_id wave = none) ∧
    (∀ (exp : ℚ → ℚ) (a b : List Element) (wave : ℚ),
      scene_spectrum exp (a ++ b) a.length wave =
        scene_spectrum exp b 0 wave) := by
  constructor
  · intro exp scene fid wave h
    exact scene_spectrum_go_missing_temp exp wave _ 0 h
  · intro exp a b wave
    simp only [scene_spectrum, List.drop_left, List.drop_zero]

/-- Witness for C8: a scene holding one photometric star (no `temp` key)
makes `scene_spectrum` fail, and prefixing a dot scene by one star while
starting at index 1 equals the bare dot scene's spectrum. -/
theorem scene_spectrum_slice_and_missing_temp_witness :
    scene_spectrum (fun _ => 2)
      [scene_star ("a0v") 5 3 ("johnson,v") ("generic source")] 0 10 = none ∧
    scene_spectrum (fun _ => 2)
      ([scene_star ("a0v") 5 3 ("johnson,v") ("generic source")] ++
        [get_dot 1 0 0 ("d") 10 5 100 (1 / 10)]) 1 10 =
      scene_spectrum (fun _ => 2) [get_dot 1 0 0 ("d") 10 5 100 (1 / 10)] 0
        10 :=
  ⟨scene_spectrum_slice_and_missing_temp.1 (fun _ => 2) _ 0 10
    ⟨scene_star ("a0v") 5 3 ("johnson,v") ("generic source"), by simp, rfl⟩,
   scene_spectrum_slice_and_missing_temp.2 (fun _ => 2)
    [scene_star ("a0v") 5 3 ("johnson,v") ("generic source")]
    [get_dot 1 0 0 ("d") 10 5 100 (1 / 10)] 10⟩

/-! ## Helper lemmas for the rescaling loop of `normalise_scene` -/

lemma get?_set_same {α : Type} :
    ∀ (l : List α) (i : ℕ) (a : α), i < l.length →
      (l.set i a).get? i = some a := by
  intro l
  induction l with
  | nil => intro i a h; simp at h
  | cons x xs ih =>
    intro i a h
    cases i with
    | zero => rfl
    | succ j => exact ih j a (by simpa using h)

lemma get?_set_other {α : Type} :
    ∀ (l : List α) (i j : ℕ) (a : α), i ≠ j →
      (l.set i a).get? j = l.get? j := by
  intro l
  induction l with
  | nil => intro i j a _; rfl
  | cons x xs ih =>
    intro i j a h
    cases i with
    | zero =>
      cases j with
      | zero => exact absurd rfl h
      | succ m => rfl
    | succ n =>
      cases j with
      | zero => rfl
      | succ m => exact ih n m a (fun he => h (by rw [he]))

lemma mem_range'_of_lt : ∀ (n a k : ℕ), k < n → (a + k) ∈ List.range' a n := by
  intro n
  induction n with
  | zero => intro a k h; omega
  | succ m ih =>
    intro a k hk
    rw [show List.range' a (m + 1) = a :: List.range' (a + 1) m from rfl]
    cases k with
    | zero => simp
    | succ j =>
      refine List.mem_cons_of_mem a ?_
      have := ih (a + 1) j (by omega)
      simpa [Nat.add_assoc, Nat.add_comm 1 j] using this

lemma mem_range'_lower : ∀ (n a m : ℕ), m ∈ List.range' a n → a ≤ m := by
  intro n
  induction n with
  | zero => intro a m h; simp [List.range'] at h
  | succ k ih =>
    intro a m h
    rw [show List.range' a (k + 1) = a :: List.range' (a + 1) k from rfl] at h
    rcases List.mem_cons.mp h with rfl | h'
    · exact le_refl m
    · exact le_trans (by omega) (ih (a + 1) m h')

lemma rescale_loop_oob (norm : ℚ) : ∀ (idxs : List ℕ) (s : List Element),
    (∃ j ∈ idxs, s.length ≤ j) → rescale_loop norm s idxs = none := by
  intro idxs
  induction idxs with
  | nil => intro s h; simp at h
  | cons i rest ih =>
    intro s h
    rcases h with ⟨j, hj, hlen⟩
    cases hg : s.get? i with
    | none => simp only [rescale_loop, hg]
    | some e =>
      simp only [rescale_loop, hg]
      apply ih
      rcases List.mem_cons.mp hj with rfl | hmem
      · exfalso
        have hnone : s.get? j = none := List.get?_eq_none.mpr hlen
        rw [hnone] at hg
        exact Option.noConfusion hg
      · exact ⟨j, hmem, by rwa [List.length_set]⟩

lemma eqExceptNormFlux_refl (a : Element) : eqExceptNormFlux a a := by
  unfold eqExceptNormFlux
  exact ⟨rfl, rfl, rfl, rfl, rfl, rfl, rfl, rfl, rfl, rfl, rfl, rfl⟩

lemma eqExceptNormFlux_trans {a b c : Element} (h1 : eqExceptNormFlux a b)
    (h2 : eqExceptNormFlux b c) : eqExceptNormFlux a c := by
  unfold eqExceptNormFlux at h1 h2 ⊢
  obtain ⟨p1, p2, p3, p4, p5, p6, p7, p8, p9, p10, p11, p12⟩ := h1
  obtain ⟨q1, q2, q3, q4, q5, q6, q7, q8, q9, q10, q11, q12⟩ := h2
  exact ⟨q1.trans p1, q2.trans p2, q3.trans p3, q4.trans p4, q5.trans p5,
         q6.trans p6, q7.trans p7, q8.trans p8, q9.trans p9, q10.trans p10,
         q11.trans p11, q12.trans p12⟩

lemma eqExceptNormFlux_scale (e : Element) (norm : ℚ) :
    eqExceptNormFlux e (scale_norm e norm) := by
  unfold eqExceptNormFlux scale_norm
  exact ⟨rfl, rfl, rfl, rfl, rfl, rfl, rfl, rfl, rfl, rfl, rfl, rfl⟩

lemma rescale_loop_props (norm : ℚ) : ∀ (idxs : List ℕ) (s t : List Element),
    rescale_loop norm s idxs = some t →
    t.length = s.length ∧
    (∀ j, j ∉ idxs → t.get? j = s.get? j) ∧
    (∀ j e1 e2, s.get? j = some e1 → t.get? j = some e2 →
      eqExceptNormFlux e1 e2) := by
  intro idxs
  induction idxs with
  | nil =>
    intro s t h
    simp only [rescale_loop, Option.some.injEq] at h
    subst h
    refine ⟨rfl, fun j _ => rfl, fun j e1 e2 h1 h2 => ?_⟩
    rw [h1] at h2
    cases h2
    exact eqExceptNormFlux_refl e1
  | cons i rest ih =>
    intro s t h
    cases hg : s.get? i with
    | none =>
      simp only [rescale_loop, hg] at h
      exact Option.noConfusion h
    | some e0 =>
      simp only [rescale_loop, hg] at h
      obtain ⟨hlen, hunt, hexc⟩ := ih (s.set i (scale_norm e0 norm)) t h
      refine ⟨by rw [hlen, List.length_set], ?_, ?_⟩
      · intro j hj
        have hji : i ≠ j := fun he => hj (he ▸ List.mem_cons_self i rest)
        have hjr : j ∉ rest := fun hm => hj (List.mem_cons_of_mem i hm)
        rw [hunt j hjr, get?_set_other s i j _ hji]
      · intro j e1 e2 h1 h2
        by_cases hji : j = i
        · subst hji
          have he : e1 = e0 := Option.some.inj (h1.symm.trans hg)
          obtain ⟨hlt, _⟩ := List.get?_eq_some.mp h1
          have hs' : (s.set j (scale_norm e0 norm)).get? j
              = some (scale_norm e0 norm) := get?_set_same s j _ hlt
          rw [he]
          exact eqExceptNormFlux_trans (eqExceptNormFlux_scale e0 norm)
            (hexc j _ e2 hs' h2)
        · have hs' := get?_set_other s i j (scale_norm e0 norm)
            (fun he => hji he.symm)
          exact hexc j e1 e2 (hs'.trans h1) h2

/-! ## C1: the rescale range of `normalise_scene` -/

/-- C1 (code bug): at the default `first_id = 0`, `normalise_scene` NEVER
returns a scene: for every nonempty input the final loop
`for i in range(first_id, len(scene[first_id:])+1)` runs its index one past
the end of the list and raises an `IndexError` (`none` in this embedding),
regardless of the scene contents, the target flux or the normalisation
wavelength.  The rescale range therefore does not match the index set that
`scene_spectrum` summed, contradicting the claim (which is the documented
intent). -/
theorem normalise_scene_default_first_id_raises (exp : ℚ → ℚ) (e : Element)
    (rest : List Element) (norm_flux : ℚ) (norm_wave : Option ℚ) :
    normalise_scene exp (e :: rest) norm_flux norm_wave 0 = none := by
  unfold normalise_scene
  rcases h1 : resolve_norm_wave (e :: rest) norm_wave 0 with _ | nw
  · simp only [h1]
  · simp only [h1]
    rcases h2 : scene_spectrum exp (e :: rest) 0 nw with _ | tot
    · simp only [h2]
    · simp only [h2]
      apply rescale_loop_oob
      refine ⟨(e :: rest).length, ?_, le_refl _⟩
      simpa [pyRange] using
        mem_range'_of_lt ((e :: rest).length + 1) 0 (e :: rest).length
          (by omega)

/-! ## C9: copy-on-write semantics of `normalise_scene` -/

/-- C9: whenever `normalise_scene` returns a scene, the returned scene is a
fresh list of the same length as the input in which every element agrees
with the corresponding input element on every field except possibly
`spectrum.normalization.norm_flux`, and the elements before `first_id` are
returned entirely unchanged.  (The input list itself is untouched by
construction of the embedding, mirroring the source's `copy.deepcopy`
before any mutation: the loop writes only into the copy, whether the call
returns or raises.) -/
theorem normalise_scene_copy_semantics (exp : ℚ → ℚ) (scene : List Element)
    (norm_flux : ℚ) (norm_wave : Option ℚ) (first_id : ℕ)
    (out : List Element)
    (h : normalise_scene exp scene norm_flux norm_wave first_id = some out) :
    out.length = scene.length ∧
    (∀ j, j < first_id → out.get? j = scene.get? j) ∧
    (∀ j e1 e2, scene.get? j = some e1 → out.get? j = some e2 →
      eqExceptNormFlux e1 e2) := by
  unfold normalise_scene at h
  rcases hr : resolve_norm_wave scene norm_wave first_id with _ | nw
  · simp only [hr] at h
    exact Option.noConfusion h
  · simp only [hr] at h
    rcases hs : scene_spectrum exp scene first_id nw with _ | tot
    · simp only [hs] at h
      exact Option.noConfusion h
    · simp only [hs] at h
      obtain ⟨hlen, hunt, hexc⟩ := rescale_loop_props _ _ scene out h
      refine ⟨hlen, fun j hj => hunt j ?_, hexc⟩
      intro hm
      have := mem_range'_lower _ _ _ (by simpa [pyRange] using hm)
      omega

/-- Witness for C9: a successful call (`first_id = 1` on a two-dot scene)
whose output differs from the input only in the rescaled `norm_flux` of the
second element. -/
theorem normalise_scene_copy_semantics_witness :
    ([get_dot 1 0 0 ("d") 10 2 100 (1 / 10),
      get_dot 2 0 0 ("d") 10 5 100 (1 / 10)].length =
     [get_dot 1 0 0 ("d") 10 2 100 (1 / 10),
      get_dot 2 0 0 ("d") 10 2 100 (1 / 10)].length) ∧
    (∀ j, j < 1 →
      [get_dot 1 0 0 ("d") 10 2 100 (1 / 10),
       get_dot 2 0 0 ("d") 10 5 100 (1 / 10)].get? j =
      [get_dot 1 0 0 ("d") 10 2 100 (1 / 10),
       get_dot 2 0 0 ("d") 10 2 100 (1 / 10)].get? j) ∧
    (∀ j e1 e2,
      [get_dot 1 0 0 ("d") 10 2 100 (1 / 10),
       get_dot 2 0 0 ("d") 10 2 100 (1 / 10)].get? j = some e1 →
      [get_dot 1 0 0 ("d") 10 2 100 (1 / 10),
       get_dot 2 0 0 ("d") 10 5 100 (1 / 10)].get? j = some e2 →
      eqExceptNormFlux e1 e2) :=
  normalise_scene_copy_semantics (fun _ => 2)
    [get_dot 1 0 0 ("d") 10 2 100 (1 / 10),
     get_dot 2 0 0 ("d") 10 2 100 (1 / 10)] 5 (some 10) 1
    [get_dot 1 0 0 ("d") 10 2 100 (1 / 10),
     get_dot 2 0 0 ("d") 10 5 100 (1 / 10)]
    (by norm_num [normalise_scene, resolve_norm_wave, scene_spectrum,
      scene_spectrum_go, get_dot, bnu_scalar, k1, k2, pyRange, rescale_loop,
      scale_norm])

/-! ## Helper lemmas for `add_ring` -/

lemma add_ring_eq_some (sin cos : ℚ → ℚ) (pi : ℚ) (e : Element)
    (rest : List Element) (r dr flux temp norm_wave inc pa : ℚ)
    (npt : Option ℕ) (b : String)
    (hb : e.spectrum.normalization.bandpass = some b) :
    add_ring sin cos pi (e :: rest) r dr flux temp norm_wave inc pa npt =
      some ((e :: rest) ++
        ring_chunks sin cos pi
          (ring_template e dr temp norm_wave inc pa cos pi) r flux inc
          (e :: rest).length
          (match npt with
           | some m => m
           | none => (⌊2 * pi * r / dr⌋).toNat)) := by
  unfold add_ring
  simp only [show ((e :: rest) : List Element).get? 0 = some e from rfl, hb]

lemma ring_chunks_length (sin cos : ℚ → ℚ) (pi : ℚ) (disk : Element)
    (r flux inc : ℚ) (i0 n : ℕ) :
    (ring_chunks sin cos pi disk r flux inc i0 n).length = n := by
  unfold ring_chunks
  rw [List.length_map, List.enum_length, List.length_map, List.length_range]

lemma ring_chunks_get? (sin cos : ℚ → ℚ) (pi : ℚ) (disk : Element)
    (r flux inc : ℚ) (i0 n k : ℕ) (hk : k < n) :
    (ring_chunks sin cos pi disk r flux inc i0 n).get? k =
      some { disk with
        id := (k : ℤ) + (i0 : ℤ) + 1
        spectrum :=
          { disk.spectrum with
            normalization :=
              { disk.spectrum.normalization with
                norm_flux := flux / (n : ℚ) } }
        position :=
          { disk.position with
            x_offset :=
              r * sin (deg2rad pi ((k : ℚ) * (360 / (n : ℚ)))) *
                cos (deg2rad pi inc)
            y_offset := r * cos (deg2rad pi ((k : ℚ) * (360 / (n : ℚ)))) } }
      := by
  unfold ring_chunks
  simp only [List.get?_eq_getElem?, List.getElem?_map, List.getElem?_enum,
    List.getElem?_range hk, List.length_map, List.length_range,
    Option.map_some']

lemma sum_map_eq_of_const {α : Type} (l : List α) (f : α → ℚ) (c : ℚ)
    (h : ∀ x ∈ l, f x = c) : (l.map f).sum = (l.length : ℚ) * c := by
  induction l with
  | nil => simp
  | cons x xs ih =>
    simp only [List.map_cons, List.sum_cons, List.length_cons]
    rw [h x (List.mem_cons_self x xs),
      ih (fun y hy => h y (List.mem_cons_of_mem x hy))]
    push_cast
    ring

lemma ring_chunks_flux_sum (sin cos : ℚ → ℚ) (pi : ℚ) (disk : Element)
    (r flux inc : ℚ) (i0 n : ℕ) (hn : (n : ℚ) ≠ 0) :
    ((ring_chunks sin cos pi disk r flux inc i0 n).map
      (fun el => el.spectrum.normalization.norm_flux)).sum = flux := by
  unfold ring_chunks
  rw [List.map_map]
  rw [sum_map_eq_of_const _ _ (flux / (n : ℚ)) ?_]
  · rw [List.enum_length, List.length_map, List.length_range,
      ← mul_div_assoc, mul_div_cancel_left₀ _ hn]
  · intro x hx
    simp [List.length_map, List.length_range]

/-! ## C10: `add_ring` needs a photometric first element -/

/-- C10: on any nonempty scene whose first element's normalization lacks
the `bandpass` key (e.g. one built by `get_dot`, `image2scene` or a
previous `add_ring`), `add_ring` raises a key-lookup error (`none`) while
preparing its template — in the source the `del` of `bandpass` at line 233
occurs before any element is appended, so the scene is not modified. -/
theorem add_ring_requires_bandpass (sin cos : ℚ → ℚ) (pi : ℚ) (e : Element)
    (rest : List Element) (r dr flux temp norm_wave inc pa : ℚ)
    (npt : Option ℕ) (hband : e.spectrum.normalization.bandpass = none) :
    add_ring sin cos pi (e :: rest) r dr flux temp norm_wave inc pa npt
      = none := by
  unfold add_ring
  simp only [show ((e :: rest) : List Element).get? 0 = some e from rfl,
    hband]

/-- Witness for C10: `add_ring` on a scene headed by a `get_dot` element
fails. -/
theorem add_ring_requires_bandpass_witness :
    add_ring (fun _ => 0) (fun _ => 1) 3
      [get_dot 2 0 0 ("d") 10 2 100 (1 / 10)] 1 (1 / 10) 10 100 10 0 0
      (some 2) = none :=
  add_ring_requires_bandpass (fun _ => 0) (fun _ => 1) 3
    (get_dot 2 0 0 ("d") 10 2 100 (1 / 10)) [] 1 (1 / 10) 10 100 10 0 0
    (some 2) rfl

/-! ## C6: geometry of the appended ring -/

/-- C6 counterexample: the claim quantifies over every nonempty scene, but
`add_ring` on the nonempty scene `[get_dot ...]` appends nothing at all —
it raises a `KeyError` (`none`) because the first element has no `bandpass`
key — so no `npt` elements are appended. -/
theorem add_ring_nonempty_scene_counterexample :
    add_ring (fun a => a) (fun a => a) 3
      [get_dot 1 0 0 ("d") 10 2 100 (1 / 10)] 1 (1 / 10) 10 100 10 0 0
      (some 3) = none := rfl

/-- C6 (amended): on a nonempty scene whose FIRST element carries a
`bandpass` key, `add_ring` with `npt = n ≥ 1` appends exactly `n` flat
blackbody chunks: each has `major = dr`, `minor = dr·cos(inc_rad)`, shape
orientation `90 + pa`, normalization flux `flux/n` (so the appended fluxes
sum to `flux`), id `k + len(scene) + 1`, and position
`x = r·sin(a_k)·cos(inc_rad)`, `y = r·cos(a_k)` for the `n` angles
`a_k = deg2rad(k·(360/n))`, `k < n`, evenly spaced over a full turn
excluding the closing 360°; when `inc = 0` (and `cos 0 = 1`) every chunk
has `minor = major`, and under the Pythagorean identity at the used angles
every chunk lies at distance `r` from the centre; an unsupplied `npt`
behaves as `npt = int(2·pi·r/dr)`. -/
theorem add_ring_geometry (sin cos : ℚ → ℚ) (pi : ℚ) (e : Element)
    (rest : List Element) (r dr flux temp norm_wave inc pa : ℚ) (n : ℕ)
    (hband : e.spectrum.normalization.bandpass.isSome = true)
    (hn : 0 < n) :
    ∃ out,
      add_ring sin cos pi (e :: rest) r dr flux temp norm_wave inc pa
        (some n) = some out ∧
      out.length = (e :: rest).length + n ∧
      (∀ k, k < n → ∀ el, out.get? ((e :: rest).length + k) = some el →
        el.shape.geometry = ("flat") ∧
        el.shape.major = some dr ∧
        el.shape.minor = some (dr * cos (deg2rad pi inc)) ∧
        el.shape.orientation = some (90 + pa) ∧
        el.spectrum.normalization.norm_flux = flux / (n : ℚ) ∧
        el.spectrum.sed.temp = some temp ∧
        el.id = (k : ℤ) + ((e :: rest).length : ℤ) + 1 ∧
        el.position.x_offset =
          r * sin (deg2rad pi ((k : ℚ) * (360 / (n : ℚ)))) *
            cos (deg2rad pi inc) ∧
        el.position.y_offset =
          r * cos (deg2rad pi ((k : ℚ) * (360 / (n : ℚ))))) ∧
      ((out.drop (e :: rest).length).map
        (fun el => el.spectrum.normalization.norm_flux)).sum = flux ∧
      (inc = 0 → cos 0 = 1 →
        (∀ k, k < n → ∀ el, out.get? ((e :: rest).length + k) = some el →
          el.shape.minor = el.shape.major) ∧
        ((∀ k, k < n →
            sin (deg2rad pi ((k : ℚ) * (360 / (n : ℚ)))) ^ 2 +
              cos (deg2rad pi ((k : ℚ) * (360 / (n : ℚ)))) ^ 2 = 1) →
          ∀ k, k < n → ∀ el, out.get? ((e :: rest).length + k) = some el →
            el.position.x_offset ^ 2 + el.position.y_offset ^ 2 = r ^ 2)) ∧
      add_ring sin cos pi (e :: rest) r dr flux temp norm_wave inc pa none
        = add_ring sin cos pi (e :: rest) r dr flux temp norm_wave inc pa
            (some (⌊2 * pi * r / dr⌋.toNat)) := by
  obtain ⟨b, hb⟩ := Option.isSome_iff_exists.mp hband
  have h1 : add_ring sin cos pi (e :: rest) r dr flux temp norm_wave inc pa
      (some n) = some ((e :: rest) ++
        ring_chunks sin cos pi
          (ring_template e dr temp norm_wave inc pa cos pi) r flux inc
          (e :: rest).length n) :=
    add_ring_eq_some sin cos pi e rest r dr flux temp norm_wave inc pa
      (some n) b hb
  have hget : ∀ k, k < n →
      ((e :: rest) ++
        ring_chunks sin cos pi
          (ring_template e dr temp norm_wave inc pa cos pi) r flux inc
          (e :: rest).length n).get? ((e :: rest).length + k) =
      (ring_chunks sin cos pi
        (ring_template e dr temp norm_wave inc pa cos pi) r flux inc
        (e :: rest).length n).get? k := by
    intro k hk
    rw [List.get?_append_right (Nat.le_add_right _ _)]
    congr 1
    omega
  refine ⟨_, h1, ?_, ?_, ?_, ?_, ?_⟩
  · rw [List.length_append, ring_chunks_length]
  · intro k hk el hel
    rw [hget k hk, ring_chunks_get? _ _ _ _ _ _ _ _ _ _ hk] at hel
    cases hel
    exact ⟨rfl, rfl, rfl, rfl, rfl, rfl, rfl, rfl, rfl⟩
  · rw [List.drop_left]
    exact ring_chunks_flux_sum sin cos pi _ r flux inc _ n
      (Nat.cast_ne_zero.mpr hn.ne')
  · intro hinc hcos
    constructor
    · intro k hk el hel
      rw [hget k hk, ring_chunks_get? _ _ _ _ _ _ _ _ _ _ hk] at hel
      cases hel
      show some (dr * cos (deg2rad pi inc)) = some dr
      rw [hinc]
      rw [show deg2rad pi 0 = 0 by unfold deg2rad; ring]
      rw [hcos, mul_one]
    · intro hpy k hk el hel
      rw [hget k hk, ring_chunks_get? _ _ _ _ _ _ _ _ _ _ hk] at hel
      cases hel
      show (r * sin (deg2rad pi ((k : ℚ) * (360 / (n : ℚ)))) *
          cos (deg2rad pi inc)) ^ 2 +
        (r * cos (deg2rad pi ((k : ℚ) * (360 / (n : ℚ))))) ^ 2 = r ^ 2
      rw [hinc, show deg2rad pi 0 = 0 by unfold deg2rad; ring, hcos]
      have h := hpy k hk
      linear_combination (r ^ 2) * h
  · rw [add_ring_eq_some sin cos pi e rest r dr flux temp norm_wave inc pa
        none b hb,
      add_ring_eq_some sin cos pi e rest r dr flux temp norm_wave inc pa
        (some (⌊2 * pi * r / dr⌋.toNat)) b hb]

/-- Witness for C6 at a concrete ring: a star-headed scene, `pi = 4` (the
constant is a parameter of the embedding), `npt = 4`, `inc = 0`, and
piecewise trig stand-ins; the ring appends 4 chunks whose fluxes sum to the
total flux 10. -/
theorem add_ring_geometry_witness :
    ∃ out,
      add_ring (fun a => if a = 2 then 1 else if a = 6 then -1 else 0)
        (fun a => if a = 0 then 1 else if a = 4 then -1 else 0) 4
        [scene_star ("a0v") 5 1 ("johnson,v") ("s")] 1 (1 / 10) 10 100 10 0
        0 (some 4) = some out ∧
      out.length = 1 + 4 ∧
      ((out.drop 1).map
        (fun el => el.spectrum.normalization.norm_flux)).sum = 10 := by
  obtain ⟨out, h1, h2, h3, h4, h5, h6⟩ :=
    add_ring_geometry (fun a => if a = 2 then 1 else if a = 6 then -1 else 0)
      (fun a => if a = 0 then 1 else if a = 4 then -1 else 0) 4
      (scene_star ("a0v") 5 1 ("johnson,v") ("s")) [] 1 (1 / 10) 10 100 10
      0 0 4 rfl (by norm_num)
  exact ⟨out, h1, h2, h4⟩

/-! ## C5: length handling in `add_radial_profile` -/

/-- C5 counterexample: with `rad` SHORTER than the other three sequences
(`rad` has one entry, the others two), `add_radial_profile` does not fail:
it silently succeeds, building a scene from only the first entries of
`dr`/`flux`/`temp`. -/
theorem add_radial_profile_short_rad_silent :
    (add_radial_profile (fun a => if a = 2 then 1 else if a = 6 then -1
        else 0)
      (fun a => if a = 0 then 1 else if a = 4 then -1 else 0) 4
      [scene_star ("a0v") 5 1 ("johnson,v") ("s")] [1] [1 / 10, 1 / 5]
      [1, 2] [100, 200] 10 0 0 (some 2)).isSome = true := rfl

lemma arp_go_short (sin cos : ℚ → ℚ) (pi : ℚ) (dr flux temp : List ℚ)
    (norm_wave inc pa : ℚ) (npt : Option ℕ) :
    ∀ (rad : List ℚ) (i : ℕ) (scene : List Element),
      (i ≤ dr.length ∧ dr.length < i + rad.length) ∨
      (i ≤ flux.length ∧ flux.length < i + rad.length) ∨
      (i ≤ temp.length ∧ temp.length < i + rad.length) →
      arp_go sin cos pi dr flux temp norm_wave inc pa npt i rad scene
        = none := by
  intro rad
  induction rad with
  | nil =>
    intro i scene h
    exfalso
    rcases h with ⟨ha, hb⟩ | ⟨ha, hb⟩ | ⟨ha, hb⟩ <;>
      simp only [List.length_nil] at hb <;> omega
  | cons r rest ih =>
    intro i scene h
    cases hdr : dr.get? i with
    | none => simp only [arp_go, hdr]
    | some dri =>
      cases hfl : flux.get? i with
      | none => simp only [arp_go, hdr, hfl]
      | some fl =>
        cases htp : temp.get? i with
        | none => simp only [arp_go, hdr, hfl, htp]
        | some tp =>
          simp only [arp_go, hdr, hfl, htp]
          cases har : add_ring sin cos pi scene r dri fl tp norm_wave inc
              pa npt with
          | none => rfl
          | some scene2 =>
            apply ih
            have h1 : i < dr.length :=
              (List.get?_eq_some.mp hdr).choose
            have h2 : i < flux.length :=
              (List.get?_eq_some.mp hfl).choose
            have h3 : i < temp.length :=
              (List.get?_eq_some.mp htp).choose
            simp only [List.length_cons] at h
            rcases h with ⟨ha, hb⟩ | ⟨ha, hb⟩ | ⟨ha, hb⟩
            · exact Or.inl ⟨by omega, by omega⟩
            · exact Or.inr (Or.inl ⟨by omega, by omega⟩)
            · exact Or.inr (Or.inr ⟨by omega, by omega⟩)

/-- C5 (amended): when any of `dr`, `flux`, `temp` is SHORTER than `rad`,
`add_radial_profile` is an error (`IndexError`, i.e. `none`): the loop over
`enumerate(rad)` eventually reads past the end of the short sequence.  When
instead `rad` is the shorter sequence, the loop simply exhausts `rad` and
the extra entries of the other sequences are silently ignored (see the
counterexample), so that direction of the claim fails. -/
theorem add_radial_profile_short_arrays_error (sin cos : ℚ → ℚ) (pi : ℚ)
    (scene : List Element) (rad dr flux temp : List ℚ)
    (norm_wave inc pa : ℚ) (npt : Option ℕ)
    (h : dr.length < rad.length ∨ flux.length < rad.length ∨
      temp.length < rad.length) :
    add_radial_profile sin cos pi scene rad dr flux temp norm_wave inc pa
      npt = none := by
  unfold add_radial_profile
  apply arp_go_short
  rcases h with h | h | h
  · exact Or.inl ⟨Nat.zero_le _, by omega⟩
  · exact Or.inr (Or.inl ⟨Nat.zero_le _, by omega⟩)
  · exact Or.inr (Or.inr ⟨Nat.zero_le _, by omega⟩)

/-- Witness for C5: `rad` has two entries but `dr`, `flux`, `temp` have
one, so the call fails with an index error. -/
theorem add_radial_profile_short_arrays_error_witness :
    add_radial_profile (fun _ => 0) (fun _ => 1) 3
      [scene_star ("a0v") 5 1 ("johnson,v") ("s")] [1, 2] [1 / 10] [1]
      [100] 10 0 0 (some 2) = none :=
  add_radial_profile_short_arrays_error (fun _ => 0) (fun _ => 1) 3
    [scene_star ("a0v") 5 1 ("johnson,v") ("s")] [1, 2] [1 / 10] [1] [100]
    10 0 0 (some 2) (Or.inl (by norm_num))

/-! ## C4: id assignment in `image2scene` -/

/-- C4 (code bug): `image2scene` initialises its id counter to
`np.max([s['id'] for s in scene])` — the CURRENT maximum, not one past it —
so the first appended element reuses the maximum id already present.
Concretely: a scene holding one star with id 1 and a 2×2 image with a
single above-threshold pixel yields a scene whose two elements BOTH carry
id 1, violating id uniqueness (the claimed behaviour is ids `[1, 2]`). -/
theorem image2scene_duplicate_id_eval :
    (image2scene (fun x => x) (fun x => x)
      [scene_star ("a0v") 5 1 ("johnson,v") ("generic source")]
      [[4, 1 / 1000], [1 / 1000, 1 / 1000]] 10 1 1 none 1000).map
        (fun l => l.map (fun s => s.id)) = some [1, 1] := by
  norm_num [image2scene, list_max2, img_loop, get_dot, scene_star,
    max_def]

end Pandisk
